import Mathlib

/-!
Verification of the conversation-memory store and the streaming aggregator
of the agent service (`app/agent/context/memory_store.py`,
`app/agent/service/agent_service.py`, `app/api/agent.py`).

The Python code is shallowly embedded: dict-shaped messages become a
two-field structure (`msg.get("role", "")` / `msg.get("content", "")`
default missing keys to the empty string, which the structure's total
fields capture), the Redis backend becomes an explicit key/value state
threaded through the operations.  The store's serialization is embedded
at two levels: `dumpsMessages`/`loadsMessages` is the store's own
canonical write format (carrying the round-trip theorem), while `jloads`
embeds `json.loads` in full and `get_records_json` is the faithful,
untyped read path — the code returns ANY parsed JSON list unvalidated,
which the error-handling claim is settled against.
-/

/-- A conversation message, `{role, content}` as stored by the service. -/
structure Message where
  role : String
  content : String
deriving DecidableEq

/-- The configuration-time state of `MemoryStore.__init__`:
whether the Redis client connected (`self.redis_client is not None`),
the token budget `self.max_tokens`, and the optional exact tokenizer
`self.encoding` (a total token-count function when configured; `none`
is the fallback path). -/
structure MemoryStoreM where
  redis_available : Bool
  max_tokens : Nat
  encoding : Option (String → Nat)

/-- Embedding of `MemoryStore._count_tokens`: exact tokenizer when configured,
otherwise `len(text) // 4`.  (The Python `try/except` around the
tokenizer call cannot fire for a total Lean function.) -/
def count_tokens (store : MemoryStoreM) (text : String) : Nat :=
  match store.encoding with
  | none => text.length / 4
  | some enc => enc text

/-- Embedding of `MemoryStore._count_messages_tokens`: the running-total loop
`total += role_tokens + content_tokens + 5`. -/
def count_messages_tokens (store : MemoryStoreM) (messages : List Message) : Nat :=
  messages.foldl
    (fun total msg =>
      total + (count_tokens store msg.role + count_tokens store msg.content + 5))
    0

/-- The `while truncated and count(truncated) > max_tokens: truncated.pop(0)`
loop of `MemoryStore._truncate_messages`. -/
def truncate_loop (store : MemoryStoreM) : List Message → List Message
  | [] => []
  | msg :: rest =>
    if store.max_tokens < count_messages_tokens store (msg :: rest) then
      truncate_loop store rest
    else
      msg :: rest

/-- Embedding of `MemoryStore._truncate_messages`: return the input unchanged when it is
empty or within budget, otherwise run the head-popping loop. -/
def truncate_messages (store : MemoryStoreM) (messages : List Message) : List Message :=
  if messages.isEmpty then messages
  else if count_messages_tokens store messages ≤ store.max_tokens then messages
  else truncate_loop store messages

/-! ## Streaming aggregator (`AgentService.stream`)

The LangGraph stream (`stream_mode="values"`) yields cumulative state
snapshots; each snapshot carries the conversation-so-far as a list of
LangChain message objects.  Assistant text is modelled as `List Char`
so that Python's code-point slicing (`current_content[len(full_output):]`)
is `List.drop`. -/

/-- A LangChain message object as seen in a stream state: only the
`isinstance(msg, AIMessage)` distinction and the text content matter. -/
inductive LMsg where
  | ai (content : List Char)
  | human (content : List Char)
  | system (content : List Char)
  | tool (content : List Char)
deriving DecidableEq

/-- The guard `isinstance(msg, AIMessage) and msg.content`: the content of
an AI message when it is non-empty (Python truthiness), else `none`. -/
def aiContent : LMsg → Option (List Char)
  | .ai c => if c = [] then none else some c
  | _ => none

/-- The `for msg in reversed(new_messages): if isinstance(msg, AIMessage)
and msg.content: ...; break` scan: the newest AI message with non-empty
content (the loop only breaks once it has found one). -/
def findNewestAI (msgs : List LMsg) : Option (List Char) :=
  msgs.reverse.findSome? aiContent

/-- Processing of one snapshot in `AgentService.stream`'s `async for` body:
drop the caller's pre-existing messages (`messages_list[input_message_count:]`),
locate the newest non-empty AI content, and if it is strictly longer than
`full_output`, yield the new suffix and replace `full_output`.
Returns the updated `full_output` and the chunks yielded for this snapshot. -/
def stepSnapshot (inputCount : Nat) (full : List Char) (snapshot : List LMsg) :
    List Char × List (List Char) :=
  match findNewestAI (snapshot.drop inputCount) with
  | none => (full, [])
  | some current =>
    if full.length < current.length then
      (current,
        if current.drop full.length = [] then [] else [current.drop full.length])
    else (full, [])

/-- The whole `async for state in self.agent.astream(...)` loop, starting
from accumulator `full` (initially `""`): returns the final `full_output`
and all chunks yielded, in order. -/
def streamRun (inputCount : Nat) (full : List Char) :
    List (List LMsg) → List Char × List (List Char)
  | [] => (full, [])
  | s :: rest =>
    let p := stepSnapshot inputCount full s
    let q := streamRun inputCount p.1 rest
    (q.1, p.2 ++ q.2)

/-- The "newest assistant text" of a snapshot, taken as empty when no
non-empty AI message appears after the input messages. -/
def assistantText (inputCount : Nat) (snapshot : List LMsg) : List Char :=
  (findNewestAI (snapshot.drop inputCount)).getD []

/-- The snapshot sequence is a chain of prefix-extensions: each snapshot's
newest assistant text extends the previous one (and the first extends
`prev`, the accumulator at entry). -/
def growingChain (inputCount : Nat) : List Char → List (List LMsg) → Bool
  | _, [] => true
  | prev, s :: rest =>
    prev.isPrefixOf (assistantText inputCount s)
      && growingChain inputCount (assistantText inputCount s) rest

/-- The assistant text after following the chain of snapshots (the value
`full_output` reaches when every snapshot is taken at face value). -/
def chainLast (inputCount : Nat) : List Char → List (List LMsg) → List Char
  | full, [] => full
  | _, s :: rest => chainLast inputCount (assistantText inputCount s) rest

/-- The outcome of the external generator: the snapshots it yields, and
then optionally an exception (with its message rendered by `str(e)`). -/
structure GenOutcome where
  snapshots : List (List LMsg)
  failure : Option String

/-- The error chunk text `f"抱歉，对话过程中出现错误：{str(e)}"` yielded by
`AgentService.stream`'s outer `except` clause. -/
def errorChunkText (e : String) : List Char :=
  ("抱歉，对话过程中出现错误：" ++ e).data

/-- Every chunk yielded by `AgentService.stream` for a generator outcome
(agent available, non-empty converted input): the deltas of the snapshot
loop, followed by the single error chunk if the generator raised.
The outer `try` wraps the whole loop, so a failure cuts the stream off
after the snapshots already processed and yields exactly one error text. -/
def streamChunks (inputCount : Nat) (gen : GenOutcome) : List (List Char) :=
  (streamRun inputCount [] gen.snapshots).2
    ++ (match gen.failure with
        | none => []
        | some e => [errorChunkText e])

/-! ## The canonical write format (`json.dumps` side)

`save_records` serializes with `json.dumps(messages, ensure_ascii=False)`.
`dumpsMessages` reproduces CPython's encoder output character-for-character
for the array-of-`{role, content}`-objects shape the store writes
(default separators `", "` / `": "`, `ensure_ascii=False`, so only `"`,
the backslash and control characters are escaped, the latter with the
named short escapes or `\u00xx`).  `loadsMessages` is the matching
decoder for exactly that canonical shape, used for the round-trip
theorem; the general `json.loads` of the read path is embedded
separately as `jloads` further below.  Braces are written via
`Char.ofNat` codes 123/125. -/

/-- Lowercase hex digit, as CPython's `'\u%04x'` formatting produces. -/
def hexDigit (n : Nat) : Char :=
  if n < 10 then Char.ofNat (48 + n) else Char.ofNat (87 + n)

/-- Value of a hex digit character (json accepts both cases). -/
def hexValue (c : Char) : Option Nat :=
  if 48 ≤ c.toNat ∧ c.toNat ≤ 57 then some (c.toNat - 48)
  else if 97 ≤ c.toNat ∧ c.toNat ≤ 102 then some (c.toNat - 87)
  else if 65 ≤ c.toNat ∧ c.toNat ≤ 70 then some (c.toNat - 55)
  else none

/-- One character of `json.dumps`'s string escaping (`ensure_ascii=False`):
quote and backslash are backslash-escaped, the common control characters
get their short escapes, the remaining control characters become
`\u00xx`, everything else passes through unchanged. -/
def escapeChar (c : Char) : List Char :=
  if c = '"' then ['\\', '"']
  else if c = '\\' then ['\\', '\\']
  else if c = '\n' then ['\\', 'n']
  else if c = '\t' then ['\\', 't']
  else if c = '\r' then ['\\', 'r']
  else if c = Char.ofNat 8 then ['\\', 'b']
  else if c = Char.ofNat 12 then ['\\', 'f']
  else if c.toNat < 32 then
    ['\\', 'u', '0', '0', hexDigit (c.toNat / 16), hexDigit (c.toNat % 16)]
  else [c]

/-- Full `json.dumps` string-body escaping. -/
def escapeString (s : List Char) : List Char :=
  (s.map escapeChar).flatten

/-- The single-character escapes accepted after a backslash by `json.loads`. -/
def unescapeChar (c : Char) : Option Char :=
  if c = '"' then some '"'
  else if c = '\\' then some '\\'
  else if c = '/' then some '/'
  else if c = 'n' then some '\n'
  else if c = 't' then some '\t'
  else if c = 'r' then some '\r'
  else if c = 'b' then some (Char.ofNat 8)
  else if c = 'f' then some (Char.ofNat 12)
  else none

/-- Parse a json string body after its opening quote: returns the decoded
characters and the input remaining after the closing quote. -/
def parseJString : List Char → Option (List Char × List Char)
  | [] => none
  | c :: rest =>
    if c = '"' then some ([], rest)
    else if c = '\\' then
      match rest with
      | [] => none
      | e :: rest2 =>
        if e = 'u' then
          match rest2 with
          | h1 :: h2 :: h3 :: h4 :: rest3 =>
            match hexValue h1, hexValue h2, hexValue h3, hexValue h4 with
            | some a, some b, some c2, some d =>
              (parseJString rest3).map
                (fun p => (Char.ofNat (((a * 16 + b) * 16 + c2) * 16 + d) :: p.1, p.2))
            | _, _, _, _ => none
          | _ => none
        else
          match unescapeChar e with
          | some u => (parseJString rest2).map (fun p => (u :: p.1, p.2))
          | none => none
    else (parseJString rest).map (fun p => (c :: p.1, p.2))

/-- Consume an expected literal character sequence. -/
def dropLit : List Char → List Char → Option (List Char)
  | [], s => some s
  | _ :: _, [] => none
  | c :: cs, x :: xs => if x = c then dropLit cs xs else none

def lbrace : Char := Char.ofNat 123

def rbrace : Char := Char.ofNat 125

/-- The literal `{"role": "` opening a serialized message object
(brace written via its code). -/
def roleLit : List Char :=
  [lbrace, '"', 'r', 'o', 'l', 'e', '"', ':', ' ', '"']

/-- The literal `", "content": "` between the two fields. -/
def contentLit : List Char :=
  [',', ' ', '"', 'c', 'o', 'n', 't', 'e', 'n', 't', '"', ':', ' ', '"']

/-- Serialization of one `{"role": r, "content": c}` object as `json.dumps` writes it. -/
def serializeMessage (m : Message) : List Char :=
  roleLit ++ escapeString m.role.data ++ '"' :: contentLit
    ++ escapeString m.content.data ++ '"' :: [rbrace]

/-- The comma-separated object list inside the array brackets. -/
def serializeItems : List Message → List Char
  | [] => []
  | [m] => serializeMessage m
  | m :: rest => serializeMessage m ++ ',' :: ' ' :: serializeItems rest

/-- Parse one serialized message object, returning it and the rest. -/
def parseMessage (s : List Char) : Option (Message × List Char) :=
  match dropLit roleLit s with
  | none => none
  | some s1 =>
    match parseJString s1 with
    | none => none
    | some (role, s2) =>
      match dropLit contentLit s2 with
      | none => none
      | some s3 =>
        match parseJString s3 with
        | none => none
        | some (content, s4) =>
          match s4 with
          | [] => none
          | c :: s5 =>
            if c = rbrace then some (⟨⟨role⟩, ⟨content⟩⟩, s5) else none

/-- Parse the non-empty comma-separated object list up to the closing
bracket; `fuel` bounds the recursion (instantiated with the input length,
which always suffices since every object consumes at least one character). -/
def parseItems : Nat → List Char → Option (List Message × List Char)
  | 0, _ => none
  | fuel + 1, s =>
    match parseMessage s with
    | none => none
    | some (m, s1) =>
      match s1 with
      | ']' :: rest => some ([m], rest)
      | ',' :: ' ' :: rest =>
        (parseItems fuel rest).map (fun p => (m :: p.1, p.2))
      | _ => none

/-- Embedding of `json.dumps(messages, ensure_ascii=False)` on the message list. -/
def dumpsMessages (l : List Message) : String :=
  match l with
  | [] => "[]"
  | _ => ⟨'[' :: (serializeItems l ++ [']'])⟩

/-- Decoder for the store's own canonical write format: accepts exactly
the strings `dumpsMessages` produces (on which it agrees with
`json.loads` plus the list check) and fails on everything else.  It
states the write/read round-trip at the `Message` type; it is NOT a
model of `json.loads` in general — the full parser is `jloads` below,
and the general read path is `get_records_json`. -/
def loadsMessages (s : String) : Option (List Message) :=
  match s.data with
  | '[' :: rest =>
    if rest = [']'] then some []
    else
      match parseItems s.data.length rest with
      | some (msgs, rem) => if rem = [] then some msgs else none
      | _ => none
  | _ => none

/-! ## General JSON values (`json.loads` itself)

`loadsMessages` above decodes only the store's own canonical write
format; the real read path runs full `json.loads` followed by
`isinstance(messages, list)` and returns whatever list the parse
produced, with no validation of the elements.  This section embeds
`json.loads` itself: `JVal` is the Python-side value (numbers are kept
as their source lexeme, since the claims never consume numeric values;
CPython's default scanner also accepts the `NaN` / `Infinity` /
`-Infinity` constants, kept as lexemes too; duplicate object keys keep
the first position and the last value, as dict assignment does).  The
parser's scope restriction: string escapes denoting lone UTF-16
surrogates — which Python would keep in its `str` — fall outside Lean's
scalar-value `Char` and are treated as parse failures. -/

inductive JVal where
  | jnull
  | jbool (b : Bool)
  | jnum (lexeme : List Char)
  | jstr (s : List Char)
  | jarr (elems : List JVal)
  | jobj (fields : List (List Char × JVal))

/-- The json whitespace skipped between tokens: space, tab, LF, CR. -/
def skipWs : List Char → List Char
  | [] => []
  | c :: rest =>
    if c = ' ' ∨ c = '\t' ∨ c = '\n' ∨ c = '\r' then skipWs rest else c :: rest

/-- Strict-mode json string body (after the opening quote): raw control
characters are rejected, the named escapes and `\uXXXX` are decoded, and
surrogate pairs are combined into one scalar. -/
def jstring : List Char → Option (List Char × List Char)
  | [] => none
  | c :: rest =>
    if c = '"' then some ([], rest)
    else if c = '\\' then
      match rest with
      | [] => none
      | e :: rest2 =>
        if e = 'u' then
          match rest2 with
          | h1 :: h2 :: h3 :: h4 :: rest3 =>
            match hexValue h1, hexValue h2, hexValue h3, hexValue h4 with
            | some a, some b, some c2, some d =>
              if 55296 ≤ ((a * 16 + b) * 16 + c2) * 16 + d
                  ∧ ((a * 16 + b) * 16 + c2) * 16 + d ≤ 56319 then
                match rest3 with
                | '\\' :: 'u' :: g1 :: g2 :: g3 :: g4 :: rest4 =>
                  match hexValue g1, hexValue g2, hexValue g3, hexValue g4 with
                  | some a2, some b2, some c3, some d2 =>
                    if 56320 ≤ ((a2 * 16 + b2) * 16 + c3) * 16 + d2
                        ∧ ((a2 * 16 + b2) * 16 + c3) * 16 + d2 ≤ 57343 then
                      (jstring rest4).map (fun p =>
                        (Char.ofNat (65536
                            + (((a * 16 + b) * 16 + c2) * 16 + d - 55296) * 1024
                            + (((a2 * 16 + b2) * 16 + c3) * 16 + d2 - 56320))
                          :: p.1, p.2))
                    else none
                  | _, _, _, _ => none
                | _ => none
              else if 56320 ≤ ((a * 16 + b) * 16 + c2) * 16 + d
                  ∧ ((a * 16 + b) * 16 + c2) * 16 + d ≤ 57343 then none
              else
                (jstring rest3).map (fun p =>
                  (Char.ofNat (((a * 16 + b) * 16 + c2) * 16 + d) :: p.1, p.2))
            | _, _, _, _ => none
          | _ => none
        else
          match unescapeChar e with
          | some u => (jstring rest2).map (fun p => (u :: p.1, p.2))
          | none => none
    else if c.toNat < 32 then none
    else (jstring rest).map (fun p => (c :: p.1, p.2))

/-- Longest leading run of decimal digits, and the rest. -/
def digitSpan : List Char → List Char × List Char
  | [] => ([], [])
  | c :: rest =>
    if 48 ≤ c.toNat ∧ c.toNat ≤ 57 then
      let p := digitSpan rest
      (c :: p.1, p.2)
    else ([], c :: rest)

/-- Integer part of a json number: `0` or a nonzero digit then digits. -/
def intLex : List Char → Option (List Char × List Char)
  | [] => none
  | c :: rest =>
    if c = '0' then some (['0'], rest)
    else if 49 ≤ c.toNat ∧ c.toNat ≤ 57 then
      some (c :: (digitSpan rest).1, (digitSpan rest).2)
    else none

/-- Optional fraction part `.digits`. -/
def fracLex : List Char → Option (List Char × List Char)
  | '.' :: rest =>
    match digitSpan rest with
    | ([], _) => none
    | (ds, r) => some ('.' :: ds, r)
  | s => some ([], s)

/-- Optional exponent part `(e|E)(+|-)? digits`. -/
def expLex : List Char → Option (List Char × List Char)
  | [] => some ([], [])
  | c :: rest =>
    if c = 'e' ∨ c = 'E' then
      match rest with
      | [] => none
      | sgn :: r1 =>
        if sgn = '+' ∨ sgn = '-' then
          match digitSpan r1 with
          | ([], _) => none
          | (ds, r2) => some (c :: sgn :: ds, r2)
        else
          match digitSpan (sgn :: r1) with
          | ([], _) => none
          | (ds, r2) => some (c :: ds, r2)
    else some ([], c :: rest)

/-- The json number grammar `-? (0|[1-9][0-9]*) (.digits)? ((e|E)(+|-)?digits)?`,
returned as its lexeme. -/
def jnumber (s : List Char) : Option (List Char × List Char) :=
  match s with
  | '-' :: r =>
    match intLex r with
    | none => none
    | some (ip, s2) =>
      match fracLex s2 with
      | none => none
      | some (fp, s3) =>
        match expLex s3 with
        | none => none
        | some (ep, s4) => some ('-' :: (ip ++ fp ++ ep), s4)
  | _ =>
    match intLex s with
    | none => none
    | some (ip, s2) =>
      match fracLex s2 with
      | none => none
      | some (fp, s3) =>
        match expLex s3 with
        | none => none
        | some (ep, s4) => some (ip ++ fp ++ ep, s4)

/-- Dict assignment for a parsed object field: an existing key keeps its
position and takes the new value, as in CPython. -/
def objInsert : List (List Char × JVal) → List Char → JVal → List (List Char × JVal)
  | [], k, v => [(k, v)]
  | (k0, v0) :: rest, k, v =>
    if k0 = k then (k0, v) :: rest else (k0, v0) :: objInsert rest k v

/-- Parser mode: a single value, the elements of an array after `[`, or
the fields of an object after the opening brace (with the fields read so
far). -/
inductive PMode where
  | value
  | arrItems
  | objFields (acc : List (List Char × JVal))

/-- Parser output, matching the mode. -/
inductive POut where
  | val (v : JVal)
  | arr (xs : List JVal)
  | obj (fs : List (List Char × JVal))

/-- The recursive json scanner; fuel decreases on every recursive call,
and at most two units of fuel are spent per input character consumed, so
the `2 * length + 4` budget `jloads` supplies never cuts a parse short
(CPython itself aborts deep nesting with a RecursionError, which
`get_records` turns into the same empty answer).  Each mode expects its
input already stripped of leading whitespace. -/
def jrun : Nat → PMode → List Char → Option (POut × List Char)
  | 0, _, _ => none
  | fuel + 1, PMode.value, s =>
    match dropLit ['n', 'u', 'l', 'l'] s with
    | some r => some (POut.val JVal.jnull, r)
    | none =>
    match dropLit ['t', 'r', 'u', 'e'] s with
    | some r => some (POut.val (JVal.jbool true), r)
    | none =>
    match dropLit ['f', 'a', 'l', 's', 'e'] s with
    | some r => some (POut.val (JVal.jbool false), r)
    | none =>
    match dropLit ['N', 'a', 'N'] s with
    | some r => some (POut.val (JVal.jnum ['N', 'a', 'N']), r)
    | none =>
    match dropLit ['I', 'n', 'f', 'i', 'n', 'i', 't', 'y'] s with
    | some r => some (POut.val (JVal.jnum ['I', 'n', 'f', 'i', 'n', 'i', 't', 'y']), r)
    | none =>
    match dropLit ['-', 'I', 'n', 'f', 'i', 'n', 'i', 't', 'y'] s with
    | some r =>
      some (POut.val (JVal.jnum ['-', 'I', 'n', 'f', 'i', 'n', 'i', 't', 'y']), r)
    | none =>
    match s with
    | [] => none
    | c :: rest =>
      if c = '"' then
        match jstring rest with
        | some (str, r) => some (POut.val (JVal.jstr str), r)
        | none => none
      else if c = '[' then
        match skipWs rest with
        | [] => none
        | c1 :: r1 =>
          if c1 = ']' then some (POut.val (JVal.jarr []), r1)
          else
            match jrun fuel PMode.arrItems (c1 :: r1) with
            | some (POut.arr xs, r2) => some (POut.val (JVal.jarr xs), r2)
            | _ => none
      else if c = lbrace then
        match skipWs rest with
        | [] => none
        | c1 :: r1 =>
          if c1 = rbrace then some (POut.val (JVal.jobj []), r1)
          else
            match jrun fuel (PMode.objFields []) (c1 :: r1) with
            | some (POut.obj fs, r2) => some (POut.val (JVal.jobj fs), r2)
            | _ => none
      else if c = '-' ∨ (48 ≤ c.toNat ∧ c.toNat ≤ 57) then
        match jnumber (c :: rest) with
        | some (lex, r) => some (POut.val (JVal.jnum lex), r)
        | none => none
      else none
  | fuel + 1, PMode.arrItems, s =>
    match jrun fuel PMode.value s with
    | some (POut.val v, r1) =>
      match skipWs r1 with
      | ']' :: r2 => some (POut.arr [v], r2)
      | ',' :: r2 =>
        match jrun fuel PMode.arrItems (skipWs r2) with
        | some (POut.arr xs, r3) => some (POut.arr (v :: xs), r3)
        | _ => none
      | _ => none
    | _ => none
  | fuel + 1, PMode.objFields acc, s =>
    match s with
    | '"' :: rest =>
      match jstring rest with
      | none => none
      | some (k, r1) =>
        match skipWs r1 with
        | ':' :: r2 =>
          match jrun fuel PMode.value (skipWs r2) with
          | some (POut.val v, r3) =>
            match skipWs r3 with
            | [] => none
            | c4 :: r4 =>
              if c4 = rbrace then some (POut.obj (objInsert acc k v), r4)
              else if c4 = ',' then
                jrun fuel (PMode.objFields (objInsert acc k v)) (skipWs r4)
              else none
          | _ => none
        | _ => none
    | _ => none

/-- Embedding of `json.loads`: parse one value, allowing surrounding
whitespace, requiring the whole input to be consumed. -/
def jloads (s : String) : Option JVal :=
  match jrun (2 * s.data.length + 4) PMode.value (skipWs s.data) with
  | some (POut.val v, rest) => if skipWs rest = [] then some v else none
  | _ => none

/-! ## The Redis-backed store operations -/

/-- The string-valued key/value portion of the Redis backend
(`decode_responses=True`, so values are strings).  The set-valued
chat-id index is not touched by the operations verified here. -/
structure RedisState where
  kv : String → Option String

def emptyRedis : RedisState := ⟨fun _ => none⟩

/-- Embedding of `MemoryStore._get_key`: `f"agent:messages:{user_id}:{chat_id}"`. -/
def getKey (userId chatId : String) : String :=
  "agent:messages:" ++ userId ++ ":" ++ chatId

/-- Message-typed view of `MemoryStore.get_records`, specialized to the
store's own canonical write format (`loadsMessages`): empty when the
client is absent, the key is missing, the value is falsy, or the value
is not in that format; otherwise the decoded message list.  This view
carries the round-trip and preview claims, whose stored values are the
store's own writes; the faithful untyped read path — which returns ANY
parsed JSON list — is `get_records_json` below. -/
def get_records (store : MemoryStoreM) (st : RedisState)
    (userId chatId : String) : List Message :=
  if store.redis_available then
    match st.kv (getKey userId chatId) with
    | none => []
    | some value =>
      if value = "" then []
      else
        match loadsMessages value with
        | some msgs => msgs
        | none => []
  else []

/-- Embedding of `MemoryStore.save_records`: no-op without a client, otherwise truncate,
serialize and overwrite the key (a single `SET`). -/
def save_records (store : MemoryStoreM) (st : RedisState)
    (userId chatId : String) (messages : List Message) : RedisState :=
  if store.redis_available then
    ⟨fun k =>
      if k = getKey userId chatId then
        some (dumpsMessages (truncate_messages store messages))
      else st.kv k⟩
  else st

/-- Faithful embedding of `MemoryStore.get_records` at the JSON level:
`json.loads` (the `jloads` embedding) followed only by the
`isinstance(messages, list)` check.  Whatever list the parse produced is
returned as-is — the elements are NOT validated as messages.  The
`except` clause (connection or parse errors) and the falsy-value check
are the empty branches.  `get_records` below is the message-typed view
of this same path on the store's own canonical write format. -/
def get_records_json (store : MemoryStoreM) (st : RedisState)
    (userId chatId : String) : List JVal :=
  if store.redis_available then
    match st.kv (getKey userId chatId) with
    | none => []
    | some value =>
      if value = "" then []
      else
        match jloads value with
        | some (JVal.jarr xs) => xs
        | _ => []
  else []

/-- The fixed preview placeholder `"新对话"`. -/
def chatPlaceholder : String := "新对话"

/-- The preview record `{chat_id, preview, message_count}`. -/
structure ChatPreview where
  chat_id : String
  preview : String
  message_count : Nat
deriving DecidableEq

/-- The `for msg in messages: if msg.get("role") == "user": preview =
msg.get("content", "")[:50]; break` scan of `get_chat_preview`. -/
def firstUserContent (messages : List Message) : String :=
  match messages.find? (fun m => m.role = "user") with
  | some m => ⟨m.content.data.take 50⟩
  | none => ""

/-- Embedding of `MemoryStore.get_chat_preview`: `None` on an empty (or absent) log,
otherwise the first user message's 50-character prefix with the
placeholder substituted when that prefix is falsy (`preview or "新对话"`). -/
def get_chat_preview (store : MemoryStoreM) (st : RedisState)
    (userId chatId : String) : Option ChatPreview :=
  let messages := get_records store st userId chatId
  if messages.isEmpty then none
  else
    let preview := firstUserContent messages
    some ⟨chatId, if preview = "" then chatPlaceholder else preview,
          messages.length⟩

/-! ## The streaming HTTP route (`generate_response` in `app/api/agent.py`) -/

/-- One server-sent event produced by the `/stream` route: a code-200
`"streaming"` event carrying a content chunk, the code-200 `"done"`
event carrying the chat id, or the code-500 error event of the route's
`except` clause. -/
inductive Event where
  | streaming (content : List Char)
  | done (chatId : String)
  | errorEvent (code : Nat) (msg : String)
deriving DecidableEq

def isErrorEvent : Event → Bool
  | .errorEvent _ _ => true
  | _ => false

structure GenResult where
  newState : RedisState
  events : List Event

/-- The body of `generate_response` given the chunks produced by
`agent_service.stream` (that generator catches every exception
internally and yields the failure as an ordinary text chunk, so the
route's `except` branch — the only producer of `Event.errorEvent` — is
unreachable from a generator failure): each chunk is accumulated into
`full_reply` and emitted as a code-200 streaming event; after the loop
the assistant turn is appended, persisted through `save_records`, and
the done event is emitted.  (`add_chat_id` only touches the set-valued
index, which is outside this model.) -/
def generate_response (store : MemoryStoreM) (st : RedisState)
    (userId chatId : String) (memory_messages : List Message)
    (chunks : List (List Char)) : GenResult :=
  let full_reply : List Char := chunks.flatten
  let newLog := memory_messages ++ [⟨"assistant", ⟨full_reply⟩⟩]
  let st' := save_records store st userId chatId newLog
  ⟨st', (chunks.map fun c => Event.streaming c) ++ [Event.done chatId]⟩

theorem count_messages_tokens_go (store : MemoryStoreM) (l : List Message) : ∀ (a : Nat),
    l.foldl (fun total msg =>
        total + (count_tokens store msg.role + count_tokens store msg.content + 5)) a
      = a + l.foldl (fun total msg =>
        total + (count_tokens store msg.role + count_tokens store msg.content + 5)) 0 := by
  induction l with
  | nil => intro a; simp
  | cons m rest ih =>
    intro a
    simp only [List.foldl_cons]
    rw [ih (a + _), ih (0 + _)]
    omega

theorem count_messages_tokens_cons (store : MemoryStoreM) (m : Message) (l : List Message) :
    count_messages_tokens store (m :: l)
      = (count_tokens store m.role + count_tokens store m.content + 5)
        + count_messages_tokens store l := by
  simp only [count_messages_tokens, List.foldl_cons]
  rw [count_messages_tokens_go]
  omega

theorem truncate_loop_suffix (store : MemoryStoreM) (l : List Message) :
    truncate_loop store l <:+ l := by
  induction l with
  | nil => simp [truncate_loop]
  | cons m rest ih =>
    simp only [truncate_loop]
    split
    · exact ih.trans (List.suffix_cons m rest)
    · exact List.suffix_refl _

theorem truncate_loop_le (store : MemoryStoreM) (l : List Message) :
    count_messages_tokens store (truncate_loop store l) ≤ store.max_tokens := by
  induction l with
  | nil => simp [truncate_loop, count_messages_tokens]
  | cons m rest ih =>
    simp only [truncate_loop]
    split
    · exact ih
    · omega

theorem truncate_loop_of_le (store : MemoryStoreM) (l : List Message)
    (h : count_messages_tokens store l ≤ store.max_tokens) :
    truncate_loop store l = l := by
  cases l with
  | nil => rfl
  | cons m rest => simp [truncate_loop, Nat.not_lt_of_le h]

theorem truncate_messages_suffix (store : MemoryStoreM) (l : List Message) :
    truncate_messages store l <:+ l := by
  unfold truncate_messages
  split
  · exact List.suffix_refl _
  · split
    · exact List.suffix_refl _
    · exact truncate_loop_suffix store l

theorem truncate_messages_le (store : MemoryStoreM) (l : List Message) :
    count_messages_tokens store (truncate_messages store l) ≤ store.max_tokens := by
  unfold truncate_messages
  split
  · rename_i h
    rw [List.isEmpty_iff] at h
    subst h
    simp [count_messages_tokens]
  · split
    · assumption
    · exact truncate_loop_le store l

/-! ### Stream aggregator lemmas -/

theorem aiContent_ne_nil {m : LMsg} {c : List Char} (h : aiContent m = some c) :
    c ≠ [] := by
  cases m with
  | ai d =>
    simp only [aiContent] at h
    split at h
    · exact absurd h (by simp)
    · rename_i hne
      cases h
      exact hne
  | human d => simp [aiContent] at h
  | system d => simp [aiContent] at h
  | tool d => simp [aiContent] at h

theorem findSome?_aiContent_ne_nil :
    ∀ (l : List LMsg) {c : List Char}, l.findSome? aiContent = some c → c ≠ [] := by
  intro l
  induction l with
  | nil => intro c h; simp [List.findSome?] at h
  | cons m rest ih =>
    intro c h
    rw [List.findSome?_cons] at h
    cases hm : aiContent m with
    | none => rw [hm] at h; exact ih h
    | some d =>
      rw [hm] at h
      cases h
      exact aiContent_ne_nil hm

theorem findNewestAI_ne_nil {l : List LMsg} {c : List Char}
    (h : findNewestAI l = some c) : c ≠ [] :=
  findSome?_aiContent_ne_nil l.reverse h

theorem assistantText_ne_nil_of_some {ic : Nat} {s : List LMsg} {c : List Char}
    (h : findNewestAI (s.drop ic) = some c) : assistantText ic s = c := by
  simp [assistantText, h]

theorem stepSnapshot_of_extends {ic : Nat} {full : List Char} {s : List LMsg}
    (h : full <+: assistantText ic s) :
    stepSnapshot ic full s
      = (assistantText ic s,
         if full = assistantText ic s then []
         else [(assistantText ic s).drop full.length]) := by
  unfold stepSnapshot
  cases hf : findNewestAI (s.drop ic) with
  | none =>
    have ht : assistantText ic s = [] := by simp [assistantText, hf]
    rw [ht] at h
    have : full = [] := List.prefix_nil.mp h
    subst this
    simp [ht]
  | some current =>
    have ht : assistantText ic s = current := by simp [assistantText, hf]
    rw [ht] at h ⊢
    by_cases heq : full = current
    · subst heq
      simp
    · have hlt : full.length < current.length := by
        refine Nat.lt_of_le_of_ne h.length_le ?_
        intro hlen
        exact heq (List.IsPrefix.eq_of_length h hlen)
      have hdrop : current.drop full.length ≠ [] := by
        intro hnil
        rw [List.drop_eq_nil_iff] at hnil
        omega
      simp [hlt, hdrop, heq]

theorem prefix_append_drop {full t : List Char} (h : full <+: t) :
    full ++ t.drop full.length = t := by
  obtain ⟨r, hr⟩ := h
  subst hr
  rw [List.drop_left]

theorem stepSnapshot_len_mono (ic : Nat) (full : List Char) (s : List LMsg) :
    full.length ≤ (stepSnapshot ic full s).1.length := by
  unfold stepSnapshot
  cases findNewestAI (s.drop ic) with
  | none => simp
  | some current =>
    by_cases hlt : full.length < current.length
    · simp [hlt]
      omega
    · simp [hlt]

theorem stepSnapshot_chunks_ne_nil (ic : Nat) (full : List Char) (s : List LMsg) :
    ∀ ch ∈ (stepSnapshot ic full s).2, ch ≠ [] := by
  unfold stepSnapshot
  cases findNewestAI (s.drop ic) with
  | none => simp
  | some current =>
    by_cases hlt : full.length < current.length
    · by_cases hnil : current.drop full.length = []
      · simp [hlt, hnil]
      · simp [hlt, hnil]
    · simp [hlt]

theorem stepSnapshot_no_grow {ic : Nat} {full : List Char} {s : List LMsg}
    (h : (assistantText ic s).length ≤ full.length) :
    (stepSnapshot ic full s).2 = [] := by
  unfold stepSnapshot
  cases hf : findNewestAI (s.drop ic) with
  | none => simp
  | some current =>
    have ht : assistantText ic s = current := by simp [assistantText, hf]
    rw [ht] at h
    simp [Nat.not_lt_of_le h]

theorem streamRun_chunks_ne_nil (ic : Nat) :
    ∀ (snaps : List (List LMsg)) (full : List Char),
      ∀ ch ∈ (streamRun ic full snaps).2, ch ≠ [] := by
  intro snaps
  induction snaps with
  | nil => intro full ch h; simp [streamRun] at h
  | cons s rest ih =>
    intro full ch h
    simp only [streamRun, List.mem_append] at h
    rcases h with h | h
    · exact stepSnapshot_chunks_ne_nil ic full s ch h
    · exact ih _ ch h

theorem streamRun_len_mono (ic : Nat) :
    ∀ (snaps : List (List LMsg)) (full : List Char),
      full.length ≤ (streamRun ic full snaps).1.length := by
  intro snaps
  induction snaps with
  | nil => intro full; simp [streamRun]
  | cons s rest ih =>
    intro full
    simp only [streamRun]
    exact Nat.le_trans (stepSnapshot_len_mono ic full s) (ih _)

theorem streamRun_chain (ic : Nat) :
    ∀ (snaps : List (List LMsg)) (full : List Char),
      growingChain ic full snaps = true →
      (streamRun ic full snaps).1 = chainLast ic full snaps
        ∧ full ++ ((streamRun ic full snaps).2).flatten = chainLast ic full snaps := by
  intro snaps
  induction snaps with
  | nil => intro full _; simp [streamRun, chainLast]
  | cons s rest ih =>
    intro full hchain
    simp only [growingChain, Bool.and_eq_true, List.isPrefixOf_iff_prefix] at hchain
    obtain ⟨hpre, hrest⟩ := hchain
    have hstep := stepSnapshot_of_extends hpre
    simp only [streamRun, chainLast, hstep]
    obtain ⟨ih1, ih2⟩ := ih (assistantText ic s) hrest
    constructor
    · exact ih1
    · by_cases heq : full = assistantText ic s
      · subst heq
        simpa using ih2
      · simp only [heq, ite_false, List.flatten_append, List.flatten_cons,
          List.flatten_nil, List.append_nil]
        rw [← List.append_assoc, prefix_append_drop hpre]
        exact ih2

theorem chainLast_eq_getLast (ic : Nat) :
    ∀ (snaps : List (List LMsg)) (full : List Char), snaps ≠ [] →
      chainLast ic full snaps = assistantText ic (snaps.getLast?.getD []) := by
  intro snaps
  induction snaps with
  | nil => intro full h; exact absurd rfl h
  | cons s rest ih =>
    intro full _
    cases rest with
    | nil => simp [chainLast]
    | cons s2 r2 =>
      rw [List.getLast?_cons_cons]
      show chainLast ic (assistantText ic s) (s2 :: r2) = _
      exact ih (assistantText ic s) (by simp)

/-! ### Codec round-trip lemmas -/

theorem hexValue_hexDigit : ∀ n : Nat, n < 16 → hexValue (hexDigit n) = some n := by
  decide

theorem dropLit_append : ∀ (lit s : List Char), dropLit lit (lit ++ s) = some s := by
  intro lit
  induction lit with
  | nil => intro s; rfl
  | cons c cs ih =>
    intro s
    simp only [List.cons_append, dropLit, if_pos rfl]
    exact ih s

theorem pjs_close (t : List Char) : parseJString ('"' :: t) = some ([], t) := by
  rw [parseJString.eq_def]; simp

theorem pjs_esc_quote (t : List Char) :
    parseJString ('\\' :: '"' :: t)
      = (parseJString t).map (fun p => ('"' :: p.1, p.2)) := by
  rw [parseJString.eq_def]; simp [unescapeChar]

theorem pjs_esc_backslash (t : List Char) :
    parseJString ('\\' :: '\\' :: t)
      = (parseJString t).map (fun p => ('\\' :: p.1, p.2)) := by
  rw [parseJString.eq_def]; simp [unescapeChar]

theorem pjs_esc_n (t : List Char) :
    parseJString ('\\' :: 'n' :: t)
      = (parseJString t).map (fun p => ('\n' :: p.1, p.2)) := by
  rw [parseJString.eq_def]; simp [unescapeChar]

theorem pjs_esc_t (t : List Char) :
    parseJString ('\\' :: 't' :: t)
      = (parseJString t).map (fun p => ('\t' :: p.1, p.2)) := by
  rw [parseJString.eq_def]; simp [unescapeChar]

theorem pjs_esc_r (t : List Char) :
    parseJString ('\\' :: 'r' :: t)
      = (parseJString t).map (fun p => ('\r' :: p.1, p.2)) := by
  rw [parseJString.eq_def]; simp [unescapeChar]

theorem pjs_esc_b (t : List Char) :
    parseJString ('\\' :: 'b' :: t)
      = (parseJString t).map (fun p => (Char.ofNat 8 :: p.1, p.2)) := by
  rw [parseJString.eq_def]; simp [unescapeChar]

theorem pjs_esc_f (t : List Char) :
    parseJString ('\\' :: 'f' :: t)
      = (parseJString t).map (fun p => (Char.ofNat 12 :: p.1, p.2)) := by
  rw [parseJString.eq_def]; simp [unescapeChar]

theorem pjs_unicode {h1 h2 h3 h4 : Char} {a b c2 d : Nat} (t : List Char)
    (e1 : hexValue h1 = some a) (e2 : hexValue h2 = some b)
    (e3 : hexValue h3 = some c2) (e4 : hexValue h4 = some d) :
    parseJString ('\\' :: 'u' :: h1 :: h2 :: h3 :: h4 :: t)
      = (parseJString t).map
          (fun p => (Char.ofNat (((a * 16 + b) * 16 + c2) * 16 + d) :: p.1, p.2)) := by
  rw [parseJString.eq_def]
  simp [e1, e2, e3, e4]

theorem pjs_default {c : Char} (t : List Char) (h1 : c ≠ '"') (h2 : c ≠ '\\') :
    parseJString (c :: t) = (parseJString t).map (fun p => (c :: p.1, p.2)) := by
  rw [parseJString.eq_def]
  simp [h1, h2]

theorem parseJString_escape :
    ∀ (s rest : List Char), parseJString (escapeString s ++ '"' :: rest) = some (s, rest) := by
  intro s
  induction s with
  | nil =>
    intro rest
    simp only [escapeString, List.map_nil, List.flatten_nil, List.nil_append]
    exact pjs_close rest
  | cons c s ih =>
    intro rest
    have hsplit : escapeString (c :: s) ++ '"' :: rest
        = escapeChar c ++ (escapeString s ++ '"' :: rest) := by
      simp [escapeString, List.append_assoc]
    rw [hsplit]
    by_cases e1 : c = '"'
    · subst e1
      have : escapeChar '"' = ['\\', '"'] := rfl
      rw [this, List.cons_append, List.cons_append, List.nil_append,
        pjs_esc_quote, ih rest]
      rfl
    · by_cases e2 : c = '\\'
      · subst e2
        have : escapeChar '\\' = ['\\', '\\'] := rfl
        rw [this, List.cons_append, List.cons_append, List.nil_append,
          pjs_esc_backslash, ih rest]
        rfl
      · by_cases e3 : c = '\n'
        · subst e3
          have : escapeChar '\n' = ['\\', 'n'] := rfl
          rw [this, List.cons_append, List.cons_append, List.nil_append,
            pjs_esc_n, ih rest]
          rfl
        · by_cases e4 : c = '\t'
          · subst e4
            have : escapeChar '\t' = ['\\', 't'] := rfl
            rw [this, List.cons_append, List.cons_append, List.nil_append,
              pjs_esc_t, ih rest]
            rfl
          · by_cases e5 : c = '\r'
            · subst e5
              have : escapeChar '\r' = ['\\', 'r'] := rfl
              rw [this, List.cons_append, List.cons_append, List.nil_append,
                pjs_esc_r, ih rest]
              rfl
            · by_cases e6 : c = Char.ofNat 8
              · subst e6
                have : escapeChar (Char.ofNat 8) = ['\\', 'b'] := rfl
                rw [this, List.cons_append, List.cons_append, List.nil_append,
                  pjs_esc_b, ih rest]
                rfl
              · by_cases e7 : c = Char.ofNat 12
                · subst e7
                  have : escapeChar (Char.ofNat 12) = ['\\', 'f'] := rfl
                  rw [this, List.cons_append, List.cons_append, List.nil_append,
                    pjs_esc_f, ih rest]
                  rfl
                · by_cases e8 : c.toNat < 32
                  · have hesc : escapeChar c
                        = ['\\', 'u', '0', '0',
                           hexDigit (c.toNat / 16), hexDigit (c.toNat % 16)] := by
                      simp only [escapeChar, if_neg e1, if_neg e2, if_neg e3,
                        if_neg e4, if_neg e5, if_neg e6, if_neg e7, if_pos e8]
                    have hz : hexValue '0' = some 0 := rfl
                    have hdiv : c.toNat / 16 < 16 := by omega
                    have hmod : c.toNat % 16 < 16 := by omega
                    rw [hesc]
                    simp only [List.cons_append, List.nil_append]
                    rw [pjs_unicode (escapeString s ++ '"' :: rest) hz hz
                      (hexValue_hexDigit _ hdiv) (hexValue_hexDigit _ hmod)]
                    rw [ih rest]
                    have harith :
                        ((0 * 16 + 0) * 16 + c.toNat / 16) * 16 + c.toNat % 16
                          = c.toNat := by omega
                    rw [harith, Char.ofNat_toNat]
                    rfl
                  · have hesc : escapeChar c = [c] := by
                      simp only [escapeChar, if_neg e1, if_neg e2, if_neg e3,
                        if_neg e4, if_neg e5, if_neg e6, if_neg e7, if_neg e8]
                    rw [hesc, List.cons_append, List.nil_append,
                      pjs_default _ e1 e2, ih rest]
                    rfl

theorem parseMessage_serialize (m : Message) (rest : List Char) :
    parseMessage (serializeMessage m ++ rest) = some (m, rest) := by
  have h : serializeMessage m ++ rest
      = roleLit ++ (escapeString m.role.data ++ '"' ::
          (contentLit ++ (escapeString m.content.data ++ '"' :: (rbrace :: rest)))) := by
    simp [serializeMessage, List.append_assoc]
  rw [h]
  simp [parseMessage, dropLit_append, parseJString_escape]

theorem serializeItems_head (m : Message) (l : List Message) :
    ∃ t, serializeItems (m :: l) = lbrace :: t := by
  cases l with
  | nil => exact ⟨_, rfl⟩
  | cons m2 r => exact ⟨_, rfl⟩

theorem serializeItems_length (l : List Message) :
    l.length ≤ (serializeItems l).length := by
  induction l with
  | nil => simp [serializeItems]
  | cons m r ih =>
    cases r with
    | nil =>
      have h10 : 1 ≤ (serializeMessage m).length := by
        simp only [serializeMessage, roleLit, contentLit, List.length_append,
          List.length_cons]
        omega
      simp only [serializeItems, List.length_cons, List.length_nil]
      omega
    | cons m2 r2 =>
      simp only [serializeItems, List.length_append, List.length_cons] at *
      omega

theorem parseItems_serialize :
    ∀ (l : List Message) (m : Message) (fuel : Nat) (rest : List Char),
      l.length < fuel →
      parseItems fuel (serializeItems (m :: l) ++ ']' :: rest) = some (m :: l, rest) := by
  intro l
  induction l with
  | nil =>
    intro m fuel rest h
    cases fuel with
    | zero => omega
    | succ f =>
      show parseItems (f + 1) (serializeMessage m ++ ']' :: rest) = _
      rw [parseItems.eq_def]
      simp [parseMessage_serialize]
  | cons m2 l2 ih =>
    intro m fuel rest h
    cases fuel with
    | zero => omega
    | succ f =>
      have hs : serializeItems (m :: m2 :: l2) ++ ']' :: rest
          = serializeMessage m
            ++ (',' :: ' ' :: (serializeItems (m2 :: l2) ++ ']' :: rest)) := by
        simp [serializeItems, List.append_assoc]
      rw [hs, parseItems.eq_def]
      simp only [parseMessage_serialize]
      rw [ih m2 f rest (by simp only [List.length_cons] at h; omega)]
      rfl

theorem dumpsMessages_cons (m : Message) (l : List Message) :
    dumpsMessages (m :: l) = ⟨'[' :: (serializeItems (m :: l) ++ [']'])⟩ := rfl

theorem loadsMessages_bracket (x : List Char) :
    loadsMessages ⟨'[' :: x⟩
      = (if x = [']'] then some []
         else
           match parseItems ('[' :: x).length x with
           | some (msgs, rem) => if rem = [] then some msgs else none
           | _ => none) := rfl

theorem loads_dumps (l : List Message) : loadsMessages (dumpsMessages l) = some l := by
  cases l with
  | nil => rfl
  | cons m l2 =>
    rw [dumpsMessages_cons, loadsMessages_bracket]
    obtain ⟨t, ht⟩ := serializeItems_head m l2
    have hlb : lbrace ≠ ']' := by decide
    have hcond : ¬(serializeItems (m :: l2) ++ [']'] = ([']'] : List Char)) := by
      rw [ht]
      simp [hlb]
    rw [if_neg hcond]
    have hlen : (m :: l2).length ≤ (serializeItems (m :: l2)).length :=
      serializeItems_length _
    have hfuel : l2.length < ('[' :: (serializeItems (m :: l2) ++ [']'])).length := by
      simp only [List.length_cons, List.length_append] at *
      omega
    rw [parseItems_serialize l2 m _ [] hfuel]
    rfl

theorem dumpsMessages_ne_empty (l : List Message) : dumpsMessages l ≠ "" := by
  cases l with
  | nil => decide
  | cons m l2 =>
    rw [dumpsMessages_cons]
    intro h
    have h2 : ('[' :: (serializeItems (m :: l2) ++ [']'])) = ([] : List Char) :=
      congrArg String.data h
    exact absurd h2 (by simp)

theorem save_records_kv (store : MemoryStoreM) (st : RedisState)
    (userId chatId : String) (messages : List Message)
    (h : store.redis_available = true) :
    (save_records store st userId chatId messages).kv (getKey userId chatId)
      = some (dumpsMessages (truncate_messages store messages)) := by
  unfold save_records
  rw [h]
  simp

theorem get_records_eq_of_kv (store : MemoryStoreM) (st : RedisState)
    (userId chatId : String) (v : String) (msgs : List Message)
    (hav : store.redis_available = true)
    (hkv : st.kv (getKey userId chatId) = some v) (hne : v ≠ "")
    (hload : loadsMessages v = some msgs) :
    get_records store st userId chatId = msgs := by
  unfold get_records
  rw [hav, hkv]
  simp [hne, hload]

theorem get_records_save (store : MemoryStoreM) (st : RedisState)
    (userId chatId : String) (messages : List Message)
    (h : store.redis_available = true) :
    get_records store (save_records store st userId chatId messages) userId chatId
      = truncate_messages store messages :=
  get_records_eq_of_kv store _ userId chatId _ _ h
    (save_records_kv store st userId chatId messages h)
    (dumpsMessages_ne_empty _) (loads_dumps _)

theorem find?_eq_filter_head? {α : Type} (p : α → Bool) :
    ∀ (l : List α), l.find? p = (l.filter p).head? := by
  intro l
  induction l with
  | nil => rfl
  | cons x xs ih =>
    cases hx : p x with
    | true =>
      rw [List.find?_cons_of_pos _ hx, List.filter_cons_of_pos hx]
      rfl
    | false =>
      have hx' : ¬p x = true := by simp [hx]
      rw [List.find?_cons_of_neg _ hx', List.filter_cons_of_neg hx']
      exact ih

theorem firstUserContent_none {messages : List Message}
    (h : ∀ m ∈ messages, m.role ≠ "user") :
    firstUserContent messages = "" := by
  unfold firstUserContent
  have : messages.find? (fun m => m.role = "user") = none := by
    rw [List.find?_eq_none]
    intro m hm
    simp [h m hm]
  rw [this]

theorem firstUserContent_some {messages : List Message} {m : Message}
    (h : messages.find? (fun m' => m'.role = "user") = some m) :
    firstUserContent messages = ⟨m.content.data.take 50⟩ := by
  unfold firstUserContent
  rw [h]

theorem generate_response_newState (store : MemoryStoreM) (st : RedisState)
    (userId chatId : String) (mem : List Message) (chunks : List (List Char)) :
    (generate_response store st userId chatId mem chunks).newState
      = save_records store st userId chatId
          (mem ++ [⟨"assistant", ⟨chunks.flatten⟩⟩]) := rfl

theorem generate_response_events (store : MemoryStoreM) (st : RedisState)
    (userId chatId : String) (mem : List Message) (chunks : List (List Char)) :
    (generate_response store st userId chatId mem chunks).events
      = (chunks.map fun c => Event.streaming c) ++ [Event.done chatId] := rfl

theorem streamChunks_failure (ic : Nat) (gen : GenOutcome) (e : String)
    (h : gen.failure = some e) :
    streamChunks ic gen
      = (streamRun ic [] gen.snapshots).2 ++ [errorChunkText e] := by
  unfold streamChunks
  rw [h]

/-! ## Claim theorems -/

/-- C1: for every message list whose total token weight exceeds
`max_tokens`, `_truncate_messages` returns a contiguous suffix (tail) of
the input whose total token weight is ≤ `max_tokens` (the single
over-budget-message edge case also lands within budget, because the loop
empties the list). -/
theorem truncate_over_budget_suffix_le (store : MemoryStoreM)
    (messages : List Message)
    (_h : store.max_tokens < count_messages_tokens store messages) :
    truncate_messages store messages <:+ messages
      ∧ count_messages_tokens store (truncate_messages store messages)
          ≤ store.max_tokens :=
  ⟨truncate_messages_suffix store messages, truncate_messages_le store messages⟩

theorem truncate_over_budget_suffix_le_witness :
    (⟨true, 0, none⟩ : MemoryStoreM).max_tokens
        < count_messages_tokens ⟨true, 0, none⟩ [⟨"user", "hello"⟩]
      ∧ (truncate_messages ⟨true, 0, none⟩ [⟨"user", "hello"⟩]
           <:+ [(⟨"user", "hello"⟩ : Message)]
         ∧ count_messages_tokens ⟨true, 0, none⟩
             (truncate_messages ⟨true, 0, none⟩ [⟨"user", "hello"⟩])
           ≤ (⟨true, 0, none⟩ : MemoryStoreM).max_tokens) :=
  ⟨by decide, truncate_over_budget_suffix_le ⟨true, 0, none⟩ _ (by decide)⟩

/-- C3: for every message list whose total token weight is ≤ `max_tokens`,
`_truncate_messages` returns the list unchanged. -/
theorem truncate_within_budget_id (store : MemoryStoreM)
    (messages : List Message)
    (h : count_messages_tokens store messages ≤ store.max_tokens) :
    truncate_messages store messages = messages := by
  by_cases he : messages.isEmpty
  · simp [truncate_messages, he]
  · simp [truncate_messages, he, h]

theorem truncate_within_budget_id_witness :
    count_messages_tokens ⟨true, 2000, none⟩ [⟨"user", "hi"⟩, ⟨"assistant", "hello"⟩]
        ≤ (⟨true, 2000, none⟩ : MemoryStoreM).max_tokens
      ∧ truncate_messages ⟨true, 2000, none⟩ [⟨"user", "hi"⟩, ⟨"assistant", "hello"⟩]
          = [⟨"user", "hi"⟩, ⟨"assistant", "hello"⟩] :=
  ⟨by decide, truncate_within_budget_id ⟨true, 2000, none⟩ _ (by decide)⟩

/-- C4: when the remaining list is a single message whose own weight
exceeds `max_tokens`, the truncation loop removes it too, so both the loop
and `_truncate_messages` yield the empty list on such a one-message input. -/
theorem truncate_single_over_budget_empty (store : MemoryStoreM) (m : Message)
    (h : store.max_tokens < count_messages_tokens store [m]) :
    truncate_loop store [m] = [] ∧ truncate_messages store [m] = [] := by
  have hl : truncate_loop store [m] = [] := by
    unfold truncate_loop
    rw [if_pos h]
    rfl
  refine ⟨hl, ?_⟩
  simp [truncate_messages, Nat.not_le_of_lt h, hl]

theorem truncate_single_over_budget_empty_witness :
    (⟨true, 0, none⟩ : MemoryStoreM).max_tokens
        < count_messages_tokens ⟨true, 0, none⟩ [⟨"assistant", "longish text"⟩]
      ∧ (truncate_loop ⟨true, 0, none⟩ [⟨"assistant", "longish text"⟩] = []
         ∧ truncate_messages ⟨true, 0, none⟩ [⟨"assistant", "longish text"⟩] = []) :=
  ⟨by decide, truncate_single_over_budget_empty ⟨true, 0, none⟩ _ (by decide)⟩

/-- C5: with no exact tokenizer configured, the token weight computed by
`_count_messages_tokens` is the sum over messages of
`len(role) // 4 + len(content) // 4 + 5`. -/
theorem count_messages_tokens_fallback (store : MemoryStoreM)
    (h : store.encoding = none) (messages : List Message) :
    count_messages_tokens store messages
      = (messages.map
          (fun m => m.role.length / 4 + m.content.length / 4 + 5)).sum := by
  have hct : ∀ s : String, count_tokens store s = s.length / 4 := by
    intro s
    unfold count_tokens
    rw [h]
  induction messages with
  | nil => rfl
  | cons m rest ih =>
    rw [count_messages_tokens_cons, ih]
    simp only [List.map_cons, List.sum_cons, hct]

theorem count_messages_tokens_fallback_witness :
    (⟨true, 2000, none⟩ : MemoryStoreM).encoding = none
      ∧ count_messages_tokens ⟨true, 2000, none⟩
          [⟨"user", "hello world"⟩, ⟨"assistant", "ok"⟩]
        = ([(⟨"user", "hello world"⟩ : Message), ⟨"assistant", "ok"⟩].map
            (fun m => m.role.length / 4 + m.content.length / 4 + 5)).sum :=
  ⟨rfl, count_messages_tokens_fallback ⟨true, 2000, none⟩ rfl _⟩

/-- C2: for every chain of cumulative snapshots in which each snapshot's
newest assistant text prefix-extends the previous one, the concatenation
of all deltas emitted by the stream loop equals the final snapshot's
assistant text exactly, and a snapshot whose assistant text does not grow
emits no delta. -/
theorem stream_deltas_concat (ic : Nat) (snaps : List (List LMsg))
    (h : growingChain ic [] snaps = true) :
    ((streamRun ic [] snaps).2).flatten
        = assistantText ic (snaps.getLast?.getD [])
      ∧ ∀ (full : List Char) (s : List LMsg),
          (assistantText ic s).length ≤ full.length →
          (stepSnapshot ic full s).2 = [] := by
  constructor
  · obtain ⟨h1, h2⟩ := streamRun_chain ic snaps [] h
    rw [List.nil_append] at h2
    rw [h2]
    cases snaps with
    | nil => simp [chainLast, assistantText, findNewestAI]
    | cons s rest => exact chainLast_eq_getLast ic (s :: rest) [] (by simp)
  · intro full s hle
    exact stepSnapshot_no_grow hle

theorem stream_deltas_concat_witness :
    growingChain 1 []
        [[LMsg.human "q".data, LMsg.ai "Hi".data],
         [LMsg.human "q".data, LMsg.ai "Hi there".data],
         [LMsg.human "q".data, LMsg.ai "Hi there!".data]] = true
      ∧ ((streamRun 1 []
            [[LMsg.human "q".data, LMsg.ai "Hi".data],
             [LMsg.human "q".data, LMsg.ai "Hi there".data],
             [LMsg.human "q".data, LMsg.ai "Hi there!".data]]).2).flatten
          = assistantText 1
              ([[LMsg.human "q".data, LMsg.ai "Hi".data],
                [LMsg.human "q".data, LMsg.ai "Hi there".data],
                [LMsg.human "q".data, LMsg.ai "Hi there!".data]].getLast?.getD []) :=
  ⟨by decide, (stream_deltas_concat 1 _ (by decide)).1⟩

/-- C7: on an available backend (modelled as storing the written string
unmodified), `save_records` followed by `get_records` returns exactly
`_truncate_messages` of the saved list: serialization round-trips. -/
theorem save_get_roundtrip (store : MemoryStoreM) (st : RedisState)
    (userId chatId : String) (messages : List Message)
    (h : store.redis_available = true) :
    get_records store (save_records store st userId chatId messages) userId chatId
      = truncate_messages store messages :=
  get_records_save store st userId chatId messages h

theorem save_get_roundtrip_witness :
    (⟨true, 2000, none⟩ : MemoryStoreM).redis_available = true
      ∧ get_records ⟨true, 2000, none⟩
          (save_records ⟨true, 2000, none⟩ emptyRedis "u" "c"
            [⟨"user", "hi"⟩, ⟨"assistant", "hello"⟩]) "u" "c"
        = truncate_messages ⟨true, 2000, none⟩
            [⟨"user", "hi"⟩, ⟨"assistant", "hello"⟩] :=
  ⟨rfl, save_get_roundtrip ⟨true, 2000, none⟩ emptyRedis "u" "c" _ rfl⟩

/-- C8 counterexample: with the generator raising after one snapshot, the
route emits no error-labelled event (the error text travels inside an
ordinary code-200 streaming event, followed by the done event), and the
conversation log is no longer the pre-turn history — a partial assistant
turn (partial output plus error text) IS persisted. -/
theorem stream_failure_persists_counterexample :
    ((generate_response ⟨true, 2000, none⟩ emptyRedis "u" "c" [⟨"user", "hi"⟩]
        (streamChunks 0 ⟨[[LMsg.ai ['H', 'i']]], some "boom"⟩)).events.filter
          isErrorEvent = [])
      ∧ ((generate_response ⟨true, 2000, none⟩ emptyRedis "u" "c" [⟨"user", "hi"⟩]
          (streamChunks 0 ⟨[[LMsg.ai ['H', 'i']]], some "boom"⟩)).events.getLast?
          = some (Event.done "c"))
      ∧ get_records ⟨true, 2000, none⟩
          (generate_response ⟨true, 2000, none⟩ emptyRedis "u" "c" [⟨"user", "hi"⟩]
            (streamChunks 0 ⟨[[LMsg.ai ['H', 'i']]], some "boom"⟩)).newState "u" "c"
          ≠ [⟨"user", "hi"⟩] := by decide

/-- C8 (amended): when the generator raises mid-stream,
`AgentService.stream` yields the deltas already produced followed by
exactly one error chunk and stops; `generate_response` forwards every
chunk (the error text included) as an ordinary streaming event followed
by the done event, and persists the partial assistant turn (partial
output plus error text) to the conversation log. -/
theorem stream_failure_amended (ic : Nat) (gen : GenOutcome) (e : String)
    (store : MemoryStoreM) (st : RedisState) (userId chatId : String)
    (mem : List Message)
    (hfail : gen.failure = some e) (hav : store.redis_available = true) :
    streamChunks ic gen
        = (streamRun ic [] gen.snapshots).2 ++ [errorChunkText e]
      ∧ (generate_response store st userId chatId mem (streamChunks ic gen)).events
          = ((streamChunks ic gen).map fun c => Event.streaming c)
            ++ [Event.done chatId]
      ∧ get_records store
            (generate_response store st userId chatId mem
              (streamChunks ic gen)).newState userId chatId
          = truncate_messages store
              (mem ++ [⟨"assistant", ⟨(streamChunks ic gen).flatten⟩⟩]) :=
  ⟨streamChunks_failure ic gen e hfail,
   generate_response_events store st userId chatId mem _,
   by
     rw [generate_response_newState]
     exact get_records_save store st userId chatId _ hav⟩

theorem stream_failure_amended_witness :
    (⟨[[LMsg.ai ['H', 'i']]], some "boom"⟩ : GenOutcome).failure = some "boom"
      ∧ (⟨true, 2000, none⟩ : MemoryStoreM).redis_available = true
      ∧ get_records ⟨true, 2000, none⟩
            (generate_response ⟨true, 2000, none⟩ emptyRedis "u2" "c2" []
              (streamChunks 0 ⟨[[LMsg.ai ['H', 'i']]], some "boom"⟩)).newState
            "u2" "c2"
          = truncate_messages ⟨true, 2000, none⟩
              ([] ++ [⟨"assistant",
                ⟨(streamChunks 0 ⟨[[LMsg.ai ['H', 'i']]], some "boom"⟩).flatten⟩⟩]) :=
  ⟨rfl, rfl,
   (stream_failure_amended 0 ⟨[[LMsg.ai ['H', 'i']]], some "boom"⟩ "boom"
      ⟨true, 2000, none⟩ emptyRedis "u2" "c2" [] rfl rfl).2.2⟩

/-- C9 counterexample: a stored log whose only message is a user turn with
empty content.  The first user-role message exists and its 50-character
prefix is the empty string, yet the preview is the placeholder "新对话"
(`preview or "新对话"` treats the empty prefix as falsy), not that prefix. -/
theorem chat_preview_counterexample :
    get_records ⟨true, 2000, none⟩
        ⟨fun k => if k = getKey "u" "c9"
          then some (dumpsMessages [⟨"user", ""⟩]) else none⟩ "u" "c9"
      = [⟨"user", ""⟩]
      ∧ ([(⟨"user", ""⟩ : Message)].find? (fun m => m.role = "user")
          = some ⟨"user", ""⟩)
      ∧ (get_chat_preview ⟨true, 2000, none⟩
          ⟨fun k => if k = getKey "u" "c9"
            then some (dumpsMessages [⟨"user", ""⟩]) else none⟩ "u" "c9").map
            (fun p => p.preview)
        = some "新对话"
      ∧ ("新对话" : String) ≠ "" := by decide

/-- C9 (amended): `get_chat_preview` returns nothing on an empty (or
absent) log; on a non-empty log with no user-role message it returns the
placeholder; otherwise it returns the first 50 characters of the first
user-role message's content when that prefix is non-empty, and the
placeholder when that prefix is empty. -/
theorem chat_preview_spec (store : MemoryStoreM) (st : RedisState)
    (userId chatId : String) :
    (get_records store st userId chatId = [] →
        get_chat_preview store st userId chatId = none)
      ∧ ((get_records store st userId chatId ≠ []) →
          (∀ m ∈ get_records store st userId chatId, m.role ≠ "user") →
          get_chat_preview store st userId chatId
            = some ⟨chatId, chatPlaceholder,
                (get_records store st userId chatId).length⟩)
      ∧ (∀ m, get_records store st userId chatId ≠ [] →
          ((get_records store st userId chatId).filter
              (fun m' => m'.role = "user")).head? = some m →
          (⟨m.content.data.take 50⟩ : String) ≠ "" →
          get_chat_preview store st userId chatId
            = some ⟨chatId, ⟨m.content.data.take 50⟩,
                (get_records store st userId chatId).length⟩)
      ∧ (∀ m, get_records store st userId chatId ≠ [] →
          ((get_records store st userId chatId).filter
              (fun m' => m'.role = "user")).head? = some m →
          (⟨m.content.data.take 50⟩ : String) = "" →
          get_chat_preview store st userId chatId
            = some ⟨chatId, chatPlaceholder,
                (get_records store st userId chatId).length⟩) := by
  refine ⟨?_, ?_, ?_, ?_⟩
  · intro h
    simp [get_chat_preview, h]
  · intro hne hnouser
    have hie : ¬((get_records store st userId chatId).isEmpty = true) := by
      simpa [List.isEmpty_iff] using hne
    simp only [get_chat_preview, if_neg hie]
    rw [firstUserContent_none hnouser]
    simp
  · intro m hne hfind htake
    have hie : ¬((get_records store st userId chatId).isEmpty = true) := by
      simpa [List.isEmpty_iff] using hne
    have hfind' : (get_records store st userId chatId).find?
        (fun m' => m'.role = "user") = some m := by
      rw [find?_eq_filter_head?]
      exact hfind
    simp only [get_chat_preview, if_neg hie]
    rw [firstUserContent_some hfind']
    simp [htake]
  · intro m hne hfind htake
    have hie : ¬((get_records store st userId chatId).isEmpty = true) := by
      simpa [List.isEmpty_iff] using hne
    have hfind' : (get_records store st userId chatId).find?
        (fun m' => m'.role = "user") = some m := by
      rw [find?_eq_filter_head?]
      exact hfind
    simp only [get_chat_preview, if_neg hie]
    rw [firstUserContent_some hfind']
    simp [htake]

theorem chat_preview_spec_witness :
    get_records ⟨true, 2000, none⟩
        ⟨fun k => if k = getKey "u" "c3"
          then some (dumpsMessages [⟨"user", "hello"⟩]) else none⟩ "u" "c3" ≠ []
      ∧ ((get_records ⟨true, 2000, none⟩
            ⟨fun k => if k = getKey "u" "c3"
              then some (dumpsMessages [⟨"user", "hello"⟩]) else none⟩
            "u" "c3").filter (fun m' => m'.role = "user")).head?
          = some ⟨"user", "hello"⟩
      ∧ ((⟨("hello" : String).data.take 50⟩ : String) ≠ "")
      ∧ get_chat_preview ⟨true, 2000, none⟩
          ⟨fun k => if k = getKey "u" "c3"
            then some (dumpsMessages [⟨"user", "hello"⟩]) else none⟩ "u" "c3"
        = some ⟨"c3", ⟨("hello" : String).data.take 50⟩, 1⟩ :=
  ⟨by decide, by decide, by decide,
   (chat_preview_spec ⟨true, 2000, none⟩
      ⟨fun k => if k = getKey "u" "c3"
        then some (dumpsMessages [⟨"user", "hello"⟩]) else none⟩ "u" "c3").2.2.1
     ⟨"user", "hello"⟩ (by decide) (by decide) (by decide)⟩

/-- C10 counterexample: across the snapshots `[ai "a"]` then `[ai "xy"]`
(second longer but not extending the first), `full_output` goes from
`"a"` to `"xy"`, and the previous value is not a prefix of the new one. -/
theorem full_output_prefix_counterexample :
    (streamRun 0 [] [[LMsg.ai ['a']]]).1 = ['a']
      ∧ (streamRun 0 [] [[LMsg.ai ['a']], [LMsg.ai ['x', 'y']]]).1 = ['x', 'y']
      ∧ ¬(['a'] <+: ['x', 'y']) := by decide

/-- C10 (amended): `full_output`'s length never decreases, per snapshot
and across a whole run; every chunk yielded during normal streaming is
non-empty; and each new value of `full_output` has the previous value as
a prefix provided the snapshot's newest assistant text prefix-extends the
accumulated text (the upstream contract) — without that proviso the
prefix property can fail. -/
theorem full_output_growth (ic : Nat) (full : List Char) (s : List LMsg)
    (snaps : List (List LMsg)) :
    full.length ≤ (stepSnapshot ic full s).1.length
      ∧ full.length ≤ (streamRun ic full snaps).1.length
      ∧ (∀ ch ∈ (streamRun ic full snaps).2, ch ≠ [])
      ∧ (full <+: assistantText ic s → full <+: (stepSnapshot ic full s).1) := by
  refine ⟨stepSnapshot_len_mono ic full s, streamRun_len_mono ic snaps full,
    streamRun_chunks_ne_nil ic snaps full, fun hp => ?_⟩
  rw [stepSnapshot_of_extends hp]
  exact hp

theorem full_output_growth_witness :
    (['H'] : List Char) <+: assistantText 0 [LMsg.ai ['H', 'i']]
      ∧ (['H'] : List Char) <+: (stepSnapshot 0 ['H'] [LMsg.ai ['H', 'i']]).1 :=
  ⟨by decide, (full_output_growth 0 ['H'] [LMsg.ai ['H', 'i']] []).2.2.2 (by decide)⟩

/-! ### General-JSON read path lemmas -/

theorem jloads_empty : jloads "" = none := rfl

theorem jloads_canonical_sample :
    jloads (dumpsMessages [⟨"user", "hi"⟩])
      = some (JVal.jarr [JVal.jobj
          [("role".data, JVal.jstr "user".data),
           ("content".data, JVal.jstr "hi".data)]]) := rfl

theorem jloads_compact_reordered_sample :
    jloads "[\x7b\"content\":\"hi\",\"role\":\"user\"\x7d]"
      = some (JVal.jarr [JVal.jobj
          [("content".data, JVal.jstr "hi".data),
           ("role".data, JVal.jstr "user".data)]]) := rfl

theorem jloads_nonlist_sample : jloads "\"hi\"" = some (JVal.jstr "hi".data) := rfl

theorem jloads_duplicate_key_sample :
    jloads "\x7b\"a\":1,\"a\":2\x7d"
      = some (JVal.jobj [("a".data, JVal.jnum ['2'])]) := rfl

/-- C6 counterexample: the stored value `"[1, 2]"` is valid JSON and a
list — so `json.loads` succeeds and the `isinstance` check passes — but
it is not a well-formed message sequence, and `get_records` returns the
two-element list `[1, 2]` rather than the empty sequence the claim
requires for values that fail to parse as well-formed message
sequences. -/
theorem get_records_nonmessage_counterexample :
    get_records_json ⟨true, 2000, none⟩
        ⟨fun k => if k = getKey "u" "c6" then some "[1, 2]" else none⟩ "u" "c6"
      = [JVal.jnum ['1'], JVal.jnum ['2']]
      ∧ get_records_json ⟨true, 2000, none⟩
          ⟨fun k => if k = getKey "u" "c6" then some "[1, 2]" else none⟩ "u" "c6"
        ≠ [] := by
  have he : get_records_json ⟨true, 2000, none⟩
      ⟨fun k => if k = getKey "u" "c6" then some "[1, 2]" else none⟩ "u" "c6"
      = [JVal.jnum ['1'], JVal.jnum ['2']] := rfl
  refine ⟨he, ?_⟩
  rw [he]
  simp

/-- C6 (amended): `get_records` returns the empty sequence when the
backend is unavailable, the key is absent, the stored value is falsy or
fails to parse as JSON, or parses to a non-list JSON value; it never
raises to the caller (the embedding is total, mirroring the
`try/except`); and whenever the stored value parses as a JSON list —
whether or not its elements are well-formed messages — it returns
exactly that list's elements, in stored order, with no transformation
and no validation. -/
theorem get_records_json_fail_soft (store : MemoryStoreM) (st : RedisState)
    (userId chatId : String) :
    (store.redis_available = false →
        get_records_json store st userId chatId = [])
      ∧ (st.kv (getKey userId chatId) = none →
          get_records_json store st userId chatId = [])
      ∧ (∀ v, st.kv (getKey userId chatId) = some v → jloads v = none →
          get_records_json store st userId chatId = [])
      ∧ (∀ v j, st.kv (getKey userId chatId) = some v → jloads v = some j →
          (∀ xs, j ≠ JVal.jarr xs) →
          get_records_json store st userId chatId = [])
      ∧ (∀ v xs, store.redis_available = true →
          st.kv (getKey userId chatId) = some v →
          jloads v = some (JVal.jarr xs) →
          get_records_json store st userId chatId = xs) := by
  refine ⟨?_, ?_, ?_, ?_, ?_⟩
  · intro h
    simp [get_records_json, h]
  · intro h
    unfold get_records_json
    rw [h]
    split <;> rfl
  · intro v hkv hload
    unfold get_records_json
    rw [hkv]
    by_cases hv : v = ""
    · simp [hv]
    · simp [hv, hload]
  · intro v j hkv hload hnl
    unfold get_records_json
    rw [hkv]
    by_cases hv : v = ""
    · simp [hv]
    · cases j with
      | jarr xs => exact absurd rfl (hnl xs)
      | jnull => simp [hv, hload]
      | jbool b => simp [hv, hload]
      | jnum l => simp [hv, hload]
      | jstr s2 => simp [hv, hload]
      | jobj fs => simp [hv, hload]
  · intro v xs hav hkv hload
    have hv : v ≠ "" := by
      intro he
      rw [he, jloads_empty] at hload
      exact Option.noConfusion hload
    unfold get_records_json
    rw [hav, hkv]
    simp [hv, hload]

theorem get_records_json_fail_soft_witness :
    (⟨true, 2000, none⟩ : MemoryStoreM).redis_available = true
      ∧ (⟨fun k => if k = getKey "u" "c7"
            then some "[\x7b\"content\":\"hi\",\"role\":\"user\"\x7d]"
            else none⟩ : RedisState).kv (getKey "u" "c7")
          = some "[\x7b\"content\":\"hi\",\"role\":\"user\"\x7d]"
      ∧ jloads "[\x7b\"content\":\"hi\",\"role\":\"user\"\x7d]"
          = some (JVal.jarr [JVal.jobj
              [("content".data, JVal.jstr "hi".data),
               ("role".data, JVal.jstr "user".data)]])
      ∧ get_records_json ⟨true, 2000, none⟩
          ⟨fun k => if k = getKey "u" "c7"
            then some "[\x7b\"content\":\"hi\",\"role\":\"user\"\x7d]"
            else none⟩ "u" "c7"
        = [JVal.jobj [("content".data, JVal.jstr "hi".data),
                      ("role".data, JVal.jstr "user".data)]] :=
  ⟨rfl, rfl, rfl,
   (get_records_json_fail_soft ⟨true, 2000, none⟩
      ⟨fun k => if k = getKey "u" "c7"
        then some "[\x7b\"content\":\"hi\",\"role\":\"user\"\x7d]"
        else none⟩ "u" "c7").2.2.2.2
     "[\x7b\"content\":\"hi\",\"role\":\"user\"\x7d]"
     [JVal.jobj [("content".data, JVal.jstr "hi".data),
                 ("role".data, JVal.jstr "user".data)]]
     rfl rfl rfl⟩
